import Mathlib

/-!
Shallow embedding of the buffered I/O layer in `src/printf/ostream.cpp`.

Bytes are modelled as `Nat` values below 256.  The OS is modelled as an
oracle: for the read side, a list of chunks that successive backend
`read` calls return (an empty list of chunks means the backend is at
end-of-stream); for the write side, a list of `Int` results that
successive `::write` system calls return.  Machine `size_t` arithmetic
is modelled as `Nat` with explicit reduction modulo `2^64` where the
C++ code converts a signed OS result into `size_t`.

On this platform (glibc) `BUFSIZ = 8192`, `_IOFBF = 0`, `_IOLBF = 1`,
`_IONBF = 2`, so the enum values `FullBuf, LineBuf, NoBuf` of the source
coincide with the stdio macros the code compares against.
-/

/-- The glibc value of `BUFSIZ`, used by the source both as the read-ahead
buffer size and as the write-buffer flush threshold. -/
def BUFSIZ : Nat := 8192

/-- The size of the buffer `BufferedOutStream`'s constructor allocates
(`valloc(4096)` in the source). -/
def outAllocSize : Nat := 4096

/-- The value `2^64`, the modulus of `size_t` arithmetic. -/
def sizeTMod : Nat := 2 ^ 64

/-- The C++ conversion of a signed OS result (`ssize_t`) into `size_t`:
reduction modulo `2^64`. -/
def toSizeT (r : Int) : Nat := (r % (sizeTMod : Int)).toNat

/-- Sign extension of a byte stored in a (signed) `char` when it is
converted to `int`, as in `return buf[top++];` inside `getchar`. -/
def charToInt (b : Nat) : Int := if b < 128 then (b : Int) else (b : Int) - 256

/-- The `int` value of the `EOF` macro. -/
def EOFint : Int := -1

/-! ## The read-ahead buffering decorator (`BufferedInStream`) -/

/-- State of a `BufferedInStream`: `buf` holds the valid region
`[0, max)` of the internal buffer (so `max = buf.length`), `top` is the
next unread offset, and `backend` is the oracle of chunks the wrapped
backend stream will return on successive `read` calls (exhaustion of the
oracle models backend end-of-stream: every further backend read returns
0 bytes). -/
structure BufferedInStream where
  buf : List Nat
  top : Nat
  backend : List (List Nat)
deriving Repr, DecidableEq

namespace BufferedInStream

/-- Method `refill()`: reset `top = 0`, read a fresh chunk from the backend into
the buffer, record its length as `max`, and report whether it was
non-empty. -/
def refill (s : BufferedInStream) : Bool × BufferedInStream :=
  match s.backend with
  | [] => (false, { buf := [], top := 0, backend := [] })
  | c :: rest => (decide (c.length ≠ 0), { buf := c, top := 0, backend := rest })

/-- Loop body of `BufferedInStream::read`.  `remaining` counts the loop
iterations left (`len` minus bytes already copied), `acc` is the data
copied into `dst` so far, and `k` counts backend refill attempts.  The
C++ break condition `p != s || !refill()` becomes: if something was
already copied, stop; otherwise attempt exactly one refill and stop if it
yields nothing. -/
def readGo : BufferedInStream → Nat → List Nat → Nat →
    List Nat × BufferedInStream × Nat
  | s, 0, acc, k => (acc, s, k)
  | s, r + 1, acc, k =>
    if s.top = s.buf.length then
      if acc.length = 0 then
        let t := refill s
        if t.1 then
          readGo { t.2 with top := t.2.top + 1 } r
            (acc ++ [t.2.buf.getD t.2.top 0]) (k + 1)
        else (acc, t.2, k + 1)
      else (acc, s, k)
    else
      readGo { s with top := s.top + 1 } r (acc ++ [s.buf.getD s.top 0]) k

/-- Method `BufferedInStream::read(dst, len)`: serve buffered bytes, blocking on
at most one refill, and only when nothing has been copied yet.  Returns
the bytes copied into `dst`, the final state, and the number of backend
refill attempts performed. -/
def read (s : BufferedInStream) (len : Nat) :
    List Nat × BufferedInStream × Nat :=
  readGo s len [] 0

/-- Loop body of `BufferedInStream::readn`: like `readGo` but refills as
often as needed, stopping only when a refill yields no data (EOF). -/
def readnGo : BufferedInStream → Nat → List Nat →
    List Nat × BufferedInStream
  | s, 0, acc => (acc, s)
  | s, r + 1, acc =>
    if s.top = s.buf.length then
      let t := refill s
      if t.1 then
        readnGo { t.2 with top := t.2.top + 1 } r
          (acc ++ [t.2.buf.getD t.2.top 0])
      else (acc, t.2)
    else
      readnGo { s with top := s.top + 1 } r (acc ++ [s.buf.getD s.top 0])

/-- Method `BufferedInStream::readn(dst, len)`: fill the caller's request,
refilling as many times as needed, returning short only at EOF. -/
def readn (s : BufferedInStream) (len : Nat) :
    List Nat × BufferedInStream :=
  readnGo s len []

/-- Method `BufferedInStream::getchar()`: serve one byte from the buffer,
refilling once if it is exhausted; `EOF` (-1) on refill failure.  The
returned value is the byte sign-extended from `char` to `int`. -/
def getchar (s : BufferedInStream) : Int × BufferedInStream :=
  if s.top = s.buf.length then
    let t := refill s
    if t.1 then
      (charToInt (t.2.buf.getD t.2.top 0), { t.2 with top := t.2.top + 1 })
    else (EOFint, t.2)
  else (charToInt (s.buf.getD s.top 0), { s with top := s.top + 1 })

/-- All bytes the stream can still produce: the unread buffered window
`[top, max)` followed by everything the backend will deliver. -/
def avail (s : BufferedInStream) : List Nat :=
  s.buf.drop s.top ++ s.backend.flatten

/-- Number of bytes the stream can still produce; used to bound the
byte-by-byte delimiter-scanning loops. -/
def availLen (s : BufferedInStream) : Nat := (avail s).length

/-- Loop of `InStream::readuntil(char eol)`: read byte by byte via
`getchar`, appending each byte to the result (the `int` is truncated
back to a `char` by `push_back`), stopping at `EOF` or right after the
delimiter byte was appended.  The fuel argument only ensures
termination; `availLen s + 1` is always enough. -/
def readuntilCharGo (eol : Nat) :
    Nat → BufferedInStream → List Nat → List Nat × BufferedInStream
  | 0, s, acc => (acc, s)
  | f + 1, s, acc =>
    let o := getchar s
    if o.1 = EOFint then (acc, o.2)
    else
      let acc1 := acc ++ [(o.1 % 256).toNat]
      if o.1 = charToInt eol then (acc1, o.2)
      else readuntilCharGo eol f o.2 acc1

/-- Method `InStream::readuntil(char eol)` instantiated at a
`BufferedInStream`. -/
def readuntilChar (s : BufferedInStream) (eol : Nat) :
    List Nat × BufferedInStream :=
  readuntilCharGo eol (availLen s + 1) s []

/-- Loop of `InStream::readuntil(const char *eol, size_t neol)`: read
byte by byte via `getchar`, appending to the result, stopping at `EOF`
or as soon as the delimiter sequence is a suffix of the accumulated
result (the `memcmp` of the last `neol` bytes succeeds). -/
def readuntilSeqGo (eol : List Nat) :
    Nat → BufferedInStream → List Nat → List Nat × BufferedInStream
  | 0, s, acc => (acc, s)
  | f + 1, s, acc =>
    let o := getchar s
    if o.1 = EOFint then (acc, o.2)
    else
      let acc1 := acc ++ [(o.1 % 256).toNat]
      if eol.length ≤ acc1.length ∧ acc1.drop (acc1.length - eol.length) = eol
      then (acc1, o.2)
      else readuntilSeqGo eol f o.2 acc1

/-- Method `InStream::readuntil(const char *eol, size_t neol)` instantiated at
a `BufferedInStream`. -/
def readuntilSeq (s : BufferedInStream) (eol : List Nat) :
    List Nat × BufferedInStream :=
  readuntilSeqGo eol (availLen s + 1) s []

/-- Method `InStream::getline(char eol)`: `readuntil` and then pop the trailing
delimiter byte if present. -/
def getline (s : BufferedInStream) (eol : Nat) :
    List Nat × BufferedInStream :=
  let o := readuntilChar s eol
  (if 0 < o.1.length ∧ o.1.getLastD 0 = eol then o.1.dropLast else o.1, o.2)

/-- Method `InStream::getline(const char *eol, size_t neol)`: `readuntil` and
then strip the trailing delimiter sequence if present. -/
def getlineSeq (s : BufferedInStream) (eol : List Nat) :
    List Nat × BufferedInStream :=
  let o := readuntilSeq s eol
  (if eol.length ≤ o.1.length ∧ o.1.drop (o.1.length - eol.length) = eol
   then o.1.take (o.1.length - eol.length) else o.1, o.2)

end BufferedInStream

/-! ## The backend streams over a file descriptor -/

/-- Method `UnixFileInStream::read(s, len)` with the OS oracle made explicit:
`r` is the value the single `::read` system call would return, `e` the
value of `errno`.  Returns the result of the call (`Except` models the
C++ exception) together with the number of OS read calls performed.
The source stores the `ssize_t` result in a `size_t` variable, so its
`n < 0` error check compares an unsigned value against 0. -/
def UnixFileInStream.read (len : Nat) (r : Int) (e : Nat) :
    Except Nat Nat × Nat :=
  if len = 0 then (Except.ok 0, 0)
  else
    let n : Nat := toSizeT r
    ((if n < 0 then Except.error e else Except.ok n), 1)

/-- Observable outcome of a `UnixFileOutStream::write` call. -/
inductive WriteOutcome where
  /-- The call returned normally. -/
  | ok : WriteOutcome
  /-- The call threw `system_error(errno)`. -/
  | osFailure (e : Nat) : WriteOutcome
  /-- The call threw `system_error(EPIPE)`. -/
  | brokenPipe : WriteOutcome
  /-- The retry loop consumed every scripted OS result and is still
  running: the call has neither returned nor thrown. -/
  | looping : WriteOutcome
deriving Repr, DecidableEq

/-- The retry loop of `UnixFileOutStream::write`: `while (written != len)`
issue another `::write`, consuming the next scripted OS result, with the
`new_written < 0` check performed on a `size_t` value. -/
def UnixFileOutStream.writeLoop (e len : Nat) :
    List Int → Nat → WriteOutcome
  | [], written => if written = len then WriteOutcome.ok else WriteOutcome.looping
  | r :: rest, written =>
    if written = len then WriteOutcome.ok
    else
      let nw : Nat := toSizeT r
      if nw < 0 then WriteOutcome.osFailure e
      else UnixFileOutStream.writeLoop e len rest (written + nw)

/-- Method `UnixFileOutStream::write(s, len)` with the OS oracle made explicit:
`results` lists the values successive `::write` system calls would
return, `e` the value of `errno`.  The source stores each `ssize_t`
result in a `size_t` variable, so both `written < 0` checks compare an
unsigned value against 0; only the first call's result is checked
against 0 before the accumulation loop. -/
def UnixFileOutStream.write (e len : Nat) (results : List Int) :
    WriteOutcome :=
  if len = 0 then WriteOutcome.ok
  else
    match results with
    | [] => WriteOutcome.looping
    | r :: rest =>
      let written : Nat := toSizeT r
      if written < 0 then WriteOutcome.osFailure e
      else if written = 0 then WriteOutcome.brokenPipe
      else UnixFileOutStream.writeLoop e len rest written

/-! ## The generic `InStream::readn` template method -/

/-- Retry loop of the base-class `InStream::readn`: keep calling the
primitive `read` on the remaining range until `len` bytes are collected
or a `read` returns 0.  `rd` abstracts the virtual `read` call as a
state transformer returning a byte count; the fuel argument only ensures
termination (each successful call collects at least one byte, so `len`
is always enough). -/
def InStream.readnLoop {σ : Type} (rd : σ → Nat → Nat × σ) (len : Nat) :
    Nat → σ → Nat → Nat × σ
  | 0, s, n => (n, s)
  | f + 1, s, n =>
    if n = len then (n, s)
    else
      let o := rd s (len - n)
      if o.1 = 0 then (n, o.2)
      else InStream.readnLoop rd len f o.2 (n + o.1)

/-- The base-class `InStream::readn(s, len)`: one initial `read`,
returning 0 if it produced nothing, then the accumulation loop. -/
def InStream.readn {σ : Type} (rd : σ → Nat → Nat × σ) (s : σ) (len : Nat) :
    Nat × σ :=
  let o := rd s len
  if o.1 = 0 then (0, o.2)
  else InStream.readnLoop rd len len o.2 o.1

/-- A `UnixFileInStream` viewed through byte counts only: the oracle
lists the byte counts successive OS reads deliver (list exhaustion
models end-of-stream), and the `len = 0` guard of
`UnixFileInStream::read` short-circuits without an OS call. -/
def unixReadCounts : List Nat → Nat → Nat × List Nat
  | rs, len =>
    if len = 0 then (0, rs)
    else
      match rs with
      | [] => (0, [])
      | r :: rest => (r, rest)

/-! ## The write buffering decorator (`BufferedOutStream`) -/

/-- The three buffering modes.  Their values coincide with the stdio
macros (`_IOFBF = 0`, `_IOLBF = 1`, `_IONBF = 2`) the source compares
them against. -/
inductive BufferMode where
  | FullBuf : BufferMode
  | LineBuf : BufferMode
  | NoBuf : BufferMode
deriving Repr, DecidableEq

/-- State of a `BufferedOutStream` together with its backend's
observation trace: `sent` is the sequence of bytes the wrapped backend
stream has received so far, `pend` the buffered bytes `[0, top)` (so
`top = pend.length`), `cap` the size of the allocated buffer, `mode`
the buffering mode, and `oob` records whether some `buf[top++] = c`
store has landed at an offset `≥ cap`, outside the allocation. -/
structure BufferedOutStream where
  sent : List Nat
  pend : List Nat
  cap : Nat
  mode : BufferMode
  oob : Bool
deriving Repr, DecidableEq

namespace BufferedOutStream

/-- The constructor with `buf_ = nullptr`: allocates a 4096-byte buffer
unless the mode is `NoBuf` (`_IONBF`), in which case `buf` stays null. -/
def mk0 (mode : BufferMode) : BufferedOutStream :=
  { sent := []
    pend := []
    cap := if mode = BufferMode.NoBuf then 0 else outAllocSize
    mode := mode
    oob := false }

/-- Method `BufferedOutStream::flush()`: write `[0, top)` to the backend and
reset `top = 0`. -/
def flush (s : BufferedOutStream) : BufferedOutStream :=
  { s with sent := s.sent ++ s.pend, pend := [] }

/-- The store `buf[top++] = c`, recording whether it landed outside the
allocated buffer. -/
def store (s : BufferedOutStream) (c : Nat) : BufferedOutStream :=
  { s with
    pend := s.pend ++ [c]
    oob := s.oob || decide (s.cap ≤ s.pend.length) }

/-- The byte-append logic shared by `putchar` and the loop body of
`write` (their non-`NoBuf` path): flush first if `top == BUFSIZ`, store
the byte, then in `LineBuf` mode flush if the byte was a newline. -/
def putcharBody (s : BufferedOutStream) (c : Nat) : BufferedOutStream :=
  let s1 := if s.pend.length = BUFSIZ then flush s else s
  let s2 := store s1 c
  if s2.mode = BufferMode.LineBuf ∧ c = 10 then flush s2 else s2

/-- Method `BufferedOutStream::putchar(c)`: forward directly to the backend in
`NoBuf` mode, otherwise append through the shared byte logic. -/
def putchar (s : BufferedOutStream) (c : Nat) : BufferedOutStream :=
  if s.mode = BufferMode.NoBuf then { s with sent := s.sent ++ [c] }
  else putcharBody s c

/-- Method `BufferedOutStream::write(s, len)`: forward the whole block to the
backend in `NoBuf` mode, otherwise append each byte in order through
the shared byte logic. -/
def write (s : BufferedOutStream) (bs : List Nat) : BufferedOutStream :=
  if s.mode = BufferMode.NoBuf then { s with sent := s.sent ++ bs }
  else bs.foldl putcharBody s

/-- Destructor `BufferedOutStream::~BufferedOutStream()`: flush pending bytes, then
free the buffer (and release the wrapped backend stream). -/
def destroy (s : BufferedOutStream) : BufferedOutStream :=
  flush s

end BufferedOutStream

/-! ## Theorems -/

/-- The shared byte-append logic never changes the buffering mode or the
allocated capacity. -/
theorem BufferedOutStream.putcharBody_mode_cap (s : BufferedOutStream)
    (c : Nat) :
    (BufferedOutStream.putcharBody s c).mode = s.mode ∧
    (BufferedOutStream.putcharBody s c).cap = s.cap := by
  simp only [BufferedOutStream.putcharBody, BufferedOutStream.store,
    BufferedOutStream.flush]
  split <;> split <;> exact ⟨rfl, rfl⟩

/-- Conservation through the shared byte-append logic: the bytes the
backend has received followed by the pending bytes grow by exactly the
appended byte — no byte is lost, duplicated or reordered by a flush. -/
theorem BufferedOutStream.putcharBody_data (s : BufferedOutStream)
    (c : Nat) :
    (BufferedOutStream.putcharBody s c).sent ++
      (BufferedOutStream.putcharBody s c).pend = s.sent ++ s.pend ++ [c] := by
  simp only [BufferedOutStream.putcharBody, BufferedOutStream.store,
    BufferedOutStream.flush]
  split <;> split <;> simp

/-- Folding the byte-append logic over a block preserves the mode. -/
theorem BufferedOutStream.foldl_mode (bs : List Nat) :
    ∀ s : BufferedOutStream,
      (List.foldl BufferedOutStream.putcharBody s bs).mode = s.mode := by
  induction bs with
  | nil => intro s; rfl
  | cons c bs ih =>
    intro s
    rw [List.foldl_cons, ih]
    exact (BufferedOutStream.putcharBody_mode_cap s c).1

/-- Conservation through a whole block append: backend trace plus
pending bytes grow by exactly the appended block. -/
theorem BufferedOutStream.foldl_data (bs : List Nat) :
    ∀ s : BufferedOutStream,
      (List.foldl BufferedOutStream.putcharBody s bs).sent ++
        (List.foldl BufferedOutStream.putcharBody s bs).pend =
        s.sent ++ s.pend ++ bs := by
  induction bs with
  | nil => intro s; simp
  | cons c bs ih =>
    intro s
    rw [List.foldl_cons, ih, BufferedOutStream.putcharBody_data]
    simp

/-- The backend trace only ever grows under the byte-append logic. -/
theorem BufferedOutStream.putcharBody_sent_mono (s : BufferedOutStream)
    (c : Nat) :
    ∃ t, (BufferedOutStream.putcharBody s c).sent = s.sent ++ t := by
  simp only [BufferedOutStream.putcharBody, BufferedOutStream.store,
    BufferedOutStream.flush]
  split
  · split
    · exact ⟨s.pend ++ ([] ++ [c]), by simp⟩
    · exact ⟨s.pend, by simp⟩
  · split
    · exact ⟨s.pend ++ [c], by simp⟩
    · exact ⟨[], by simp⟩

/-- The backend trace only ever grows under a block append. -/
theorem BufferedOutStream.foldl_sent_mono (bs : List Nat) :
    ∀ s : BufferedOutStream,
      ∃ t, (List.foldl BufferedOutStream.putcharBody s bs).sent =
        s.sent ++ t := by
  induction bs with
  | nil => intro s; exact ⟨[], by simp⟩
  | cons c bs ih =>
    intro s
    obtain ⟨t1, h1⟩ := BufferedOutStream.putcharBody_sent_mono s c
    obtain ⟨t2, h2⟩ := ih (BufferedOutStream.putcharBody s c)
    exact ⟨t1 ++ t2, by rw [List.foldl_cons, h2, h1]; simp⟩

/-- Appending a newline in `LineBuf` mode flushes synchronously: the
buffer is left empty and the backend has received every byte submitted
so far, the newline included. -/
theorem BufferedOutStream.putcharBody_newline (s : BufferedOutStream)
    (hm : s.mode = BufferMode.LineBuf) :
    (BufferedOutStream.putcharBody s 10).pend = [] ∧
    (BufferedOutStream.putcharBody s 10).sent =
      s.sent ++ s.pend ++ [10] := by
  by_cases hq : s.pend.length = BUFSIZ <;>
    simp [BufferedOutStream.putcharBody, BufferedOutStream.store,
      BufferedOutStream.flush, hq, hm]

/-- Claim C8: in `LineBuf` mode, a `write` call whose argument contains a
newline at position `i` leaves the backend with everything submitted
before the call plus at least the bytes `[0, i]` of the argument by the
time the call returns — the flush on the newline is synchronous. -/
theorem c8_line_mode_newline_flush (s : BufferedOutStream) (bs : List Nat)
    (i : Nat) (hm : s.mode = BufferMode.LineBuf) (hi : i < bs.length)
    (hnl : bs.getD i 0 = 10) :
    ∃ rest, (BufferedOutStream.write s bs).sent =
      s.sent ++ s.pend ++ bs.take (i + 1) ++ rest := by
  have hmn : ¬s.mode = BufferMode.NoBuf := by rw [hm]; intro h; cases h
  rw [BufferedOutStream.write, if_neg hmn]
  have hget : bs[i]? = some 10 := by
    rw [List.getElem?_eq_getElem hi, ← List.getD_eq_getElem bs 0 hi, hnl]
  have htake : bs.take (i + 1) = bs.take i ++ [10] := by
    rw [List.take_succ, hget]
    rfl
  have hstep := BufferedOutStream.foldl_data (bs.take i) s
  have hm1 : (List.foldl BufferedOutStream.putcharBody s (bs.take i)).mode =
      BufferMode.LineBuf := by
    rw [BufferedOutStream.foldl_mode]; exact hm
  have hnlf := BufferedOutStream.putcharBody_newline _ hm1
  have h2 : List.foldl BufferedOutStream.putcharBody s (bs.take (i + 1)) =
      BufferedOutStream.putcharBody
        (List.foldl BufferedOutStream.putcharBody s (bs.take i)) 10 := by
    rw [htake, List.foldl_append]
    rfl
  obtain ⟨t, ht⟩ := BufferedOutStream.foldl_sent_mono (bs.drop (i + 1))
    (BufferedOutStream.putcharBody
      (List.foldl BufferedOutStream.putcharBody s (bs.take i)) 10)
  refine ⟨t, ?_⟩
  conv_lhs =>
    rw [show bs = bs.take (i + 1) ++ bs.drop (i + 1) from
      (List.take_append_drop _ _).symm]
  rw [List.foldl_append, h2, ht, hnlf.2, hstep, htake]
  simp

/-- Witness instantiating `c8_line_mode_newline_flush` on a fresh
line-buffered stream writing `"h\n"` (bytes `104 10`), newline at
position 1. -/
theorem c8_line_mode_newline_flush_witness :
    ((BufferedOutStream.mk0 BufferMode.LineBuf).mode = BufferMode.LineBuf ∧
      1 < [104, 10].length ∧ [104, 10].getD 1 0 = 10) ∧
    ∃ rest,
      (BufferedOutStream.write (BufferedOutStream.mk0 BufferMode.LineBuf)
          [104, 10]).sent =
        (BufferedOutStream.mk0 BufferMode.LineBuf).sent ++
          (BufferedOutStream.mk0 BufferMode.LineBuf).pend ++
          [104, 10].take (1 + 1) ++ rest :=
  ⟨⟨by decide, by decide, by decide⟩,
    c8_line_mode_newline_flush (BufferedOutStream.mk0 BufferMode.LineBuf)
      [104, 10] 1 (by decide) (by decide) (by decide)⟩

/-- Projection of the `buf[top++] = c` store: the capacity field is
untouched. -/
theorem BufferedOutStream.store_cap (s : BufferedOutStream) (c : Nat) :
    (BufferedOutStream.store s c).cap = s.cap := rfl

/-- Projection of the `buf[top++] = c` store: the pending bytes grow by
the stored byte. -/
theorem BufferedOutStream.store_pend (s : BufferedOutStream) (c : Nat) :
    (BufferedOutStream.store s c).pend = s.pend ++ [c] := rfl

/-- Projection of the `buf[top++] = c` store: the out-of-bounds flag is
raised exactly when the store lands at an offset at or past the
allocated capacity. -/
theorem BufferedOutStream.store_oob (s : BufferedOutStream) (c : Nat) :
    (BufferedOutStream.store s c).oob =
      (s.oob || decide (s.cap ≤ s.pend.length)) := rfl

/-- In `FullBuf` mode, appending a block of bytes that keeps `top` at or
below `BUFSIZ` sends nothing to the backend: every byte is accumulated in
the buffer (even far beyond the allocated capacity), and mode and
capacity are unchanged. -/
theorem BufferedOutStream.foldl_replicate_full (c : Nat) :
    ∀ (n : Nat) (s : BufferedOutStream), s.mode = BufferMode.FullBuf →
      s.pend.length + n ≤ BUFSIZ →
      (List.foldl BufferedOutStream.putcharBody s (List.replicate n c)).sent
          = s.sent ∧
      (List.foldl BufferedOutStream.putcharBody s (List.replicate n c)).pend
          = s.pend ++ List.replicate n c ∧
      (List.foldl BufferedOutStream.putcharBody s (List.replicate n c)).cap
          = s.cap ∧
      (List.foldl BufferedOutStream.putcharBody s (List.replicate n c)).mode
          = BufferMode.FullBuf := by
  intro n
  induction n with
  | zero => intro s hm _; exact ⟨rfl, by simp, rfl, hm⟩
  | succ k ih =>
    intro s hm hlen
    have hb : BUFSIZ = 8192 := rfl
    rw [hb] at hlen
    have hq : ¬s.pend.length = BUFSIZ := by rw [hb]; omega
    have hline : ¬((BufferedOutStream.store s c).mode = BufferMode.LineBuf ∧
        c = 10) := by
      intro hcontr
      have hsm : s.mode = BufferMode.LineBuf := by
        have h1 := hcontr.1
        simpa [BufferedOutStream.store] using h1
      rw [hm] at hsm
      cases hsm
    have hstep : BufferedOutStream.putcharBody s c =
        BufferedOutStream.store s c := by
      simp only [BufferedOutStream.putcharBody, if_neg hq, if_neg hline]
    rw [List.replicate_succ, List.foldl_cons, hstep]
    have ihs := ih (BufferedOutStream.store s c)
      (by simp [BufferedOutStream.store, hm])
      (by simp only [BufferedOutStream.store, List.length_append,
            List.length_cons, List.length_nil, hb]; omega)
    refine ⟨?_, ?_, ?_, ihs.2.2.2⟩
    · rw [ihs.1]; rfl
    · rw [ihs.2.1]
      simp [BufferedOutStream.store, List.replicate_succ]
    · rw [ihs.2.2.1]; rfl

/-- Claim C1 is violated by the code: the constructor allocates a
4096-byte buffer but the flush trigger compares `top` against
`BUFSIZ = 8192`.  Writing 4097 bytes to a fresh Full-mode stream (whose
allocated capacity is 4096) leaves the backend with no bytes at all and
`top = 4097`: the buffer was not flushed and `top` was not reset when it
reached the allocated capacity, and more bytes were accepted past it. -/
theorem c1_full_mode_flush_threshold_bug :
    (BufferedOutStream.write (BufferedOutStream.mk0 BufferMode.FullBuf)
        (List.replicate 4097 65)).sent = [] ∧
    (BufferedOutStream.write (BufferedOutStream.mk0 BufferMode.FullBuf)
        (List.replicate 4097 65)).pend.length = 4097 ∧
    (BufferedOutStream.mk0 BufferMode.FullBuf).cap = 4096 := by
  have h := BufferedOutStream.foldl_replicate_full 65 4097
    (BufferedOutStream.mk0 BufferMode.FullBuf) rfl (by decide)
  rw [BufferedOutStream.write, if_neg (by decide)]
  exact ⟨h.1,
    by rw [h.2.1];
       simp only [BufferedOutStream.mk0, List.nil_append, List.length_replicate],
    rfl⟩

/-- Claim C2 is violated by the code: after 4097 bytes are submitted to a
fresh Full-mode stream, a `buf[top++] = c` store has landed at offset
4096, outside the 4096-byte allocation, and `top` (4097) exceeds the
allocated capacity `C` (4096) — the claimed invariant `top ≤ C` and the
in-bounds property of every store both fail. -/
theorem c2_write_buffer_bounds_bug :
    (BufferedOutStream.write (BufferedOutStream.mk0 BufferMode.FullBuf)
        (List.replicate 4097 65)).oob = true ∧
    (BufferedOutStream.write (BufferedOutStream.mk0 BufferMode.FullBuf)
        (List.replicate 4097 65)).cap <
      (BufferedOutStream.write (BufferedOutStream.mk0 BufferMode.FullBuf)
        (List.replicate 4097 65)).pend.length := by
  have h := BufferedOutStream.foldl_replicate_full 65 4096
    (BufferedOutStream.mk0 BufferMode.FullBuf) rfl (by decide)
  rw [BufferedOutStream.write, if_neg (by decide)]
  rw [show (List.replicate 4097 65 : List Nat) =
      List.replicate 4096 65 ++ [65] from List.replicate_succ' 4096 65]
  rw [List.foldl_append, List.foldl_cons, List.foldl_nil]
  generalize hg : List.foldl BufferedOutStream.putcharBody
    (BufferedOutStream.mk0 BufferMode.FullBuf)
    (List.replicate 4096 65) = s1
  rw [hg] at h
  have hlen : s1.pend.length = 4096 := by
    rw [h.2.1]
    simp only [BufferedOutStream.mk0, List.nil_append, List.length_replicate]
  have hcap : s1.cap = 4096 := by
    rw [h.2.2.1]
    rfl
  have hq : ¬s1.pend.length = BUFSIZ := by
    rw [hlen]
    decide
  have hline : ¬((BufferedOutStream.store s1 65).mode = BufferMode.LineBuf ∧
      (65 : Nat) = 10) := by
    intro hcontr
    exact absurd hcontr.2 (by decide)
  simp only [BufferedOutStream.putcharBody, if_neg hq, if_neg hline]
  constructor
  · rw [BufferedOutStream.store_oob, hcap, hlen]
    rw [decide_eq_true (show (4096 : Nat) ≤ 4096 by omega), Bool.or_true]
  · rw [BufferedOutStream.store_cap, BufferedOutStream.store_pend, hcap,
      List.length_append, hlen]
    show (4096 : Nat) < 4096 + 1
    exact Nat.lt_succ_self 4096

/-- Claim C9: destroying a write-buffering decorator writes the pending
bytes `[0, top)` to the backend (the backend trace is extended by exactly
the pending data) and empties the buffer before it is released; no
submitted byte is dropped at teardown. -/
theorem c9_destruction_flushes_pending (s : BufferedOutStream) :
    (BufferedOutStream.destroy s).sent = s.sent ++ s.pend ∧
    (BufferedOutStream.destroy s).pend = [] :=
  ⟨rfl, rfl⟩

/-- Claim C10: a `read` of length 0 returns 0 without touching the OS or
the backend: the backend `UnixFileInStream::read` performs no OS call,
and the buffered `BufferedInStream::read` copies nothing, changes no
state, and performs no refill. -/
theorem c10_zero_length_read_no_os_call :
    (∀ r : Int, ∀ e : Nat, UnixFileInStream.read 0 r e = (Except.ok 0, 0)) ∧
    (∀ s : BufferedInStream, BufferedInStream.read s 0 = ([], s, 0)) :=
  ⟨fun _ _ => rfl, fun _ => rfl⟩

/-- Claim C7 (delimiter scan correctness): `readuntil("\r\n")` against
the input `"ab\r\ncd\r\n"` returns `"ab\r\n"` and then `"cd\r\n"`, and
`getline('\n')` against `"x\ny\n"` returns `"x"` and then `"y"`
(byte values: `a b c d x y` are `97 98 99 100 120 121`, `\r` is 13,
`\n` is 10). -/
theorem c7_readuntil_getline_delimiters :
    (BufferedInStream.readuntilSeq ⟨[], 0, [[97, 98, 13, 10, 99, 100, 13, 10]]⟩
        [13, 10]).1 = [97, 98, 13, 10] ∧
    (BufferedInStream.readuntilSeq
        (BufferedInStream.readuntilSeq ⟨[], 0, [[97, 98, 13, 10, 99, 100, 13, 10]]⟩
          [13, 10]).2 [13, 10]).1 = [99, 100, 13, 10] ∧
    (BufferedInStream.getline ⟨[], 0, [[120, 10, 121, 10]]⟩ 10).1 = [120] ∧
    (BufferedInStream.getline
        (BufferedInStream.getline ⟨[], 0, [[120, 10, 121, 10]]⟩ 10).2 10).1 = [121] := by
  refine ⟨?_, ?_, ?_, ?_⟩ <;> rfl

/-- Claim C4 is violated by the code (dead error check): both backend
stream methods store the signed OS result in a `size_t`, so the `< 0`
comparison never fires.  An OS `read` returning `-1` is reported as a
successful transfer of `2^64 - 1` bytes instead of raising `OSFailure`
with the error code, and an OS `write` returning `-1` sends the write
call into its retry loop instead of raising `OSFailure`. -/
theorem c4_negative_os_result_bug :
    UnixFileInStream.read 10 (-1) 5 = (Except.ok 18446744073709551615, 1) ∧
    UnixFileOutStream.write 5 7 [-1] = WriteOutcome.looping := by
  constructor <;> rfl

/-- Claim C3 is violated by the code: only the first OS `write` result is
checked against 0.  When the OS transfers 2 of 5 requested bytes and then
0 bytes on every further call, the accumulation loop never raises the
broken-pipe failure and never returns — however many further zero-byte
transfers the OS produces, the call is still looping. -/
theorem c3_zero_write_retry_bug :
    ∀ k : Nat, UnixFileOutStream.write 5 5 (2 :: List.replicate k 0) =
      WriteOutcome.looping := by
  have hloop : ∀ k : Nat,
      UnixFileOutStream.writeLoop 5 5 (List.replicate k 0) 2 =
        WriteOutcome.looping := by
    intro k
    induction k with
    | zero => rfl
    | succ n ih =>
      rw [List.replicate_succ]
      rw [UnixFileOutStream.writeLoop]
      simpa using ih
  intro k
  rw [UnixFileOutStream.write]
  simpa using hloop k

/-- Once something has been copied into `dst`, the read loop of
`BufferedInStream::read` never refills again: the refill counter is left
unchanged. -/
theorem BufferedInStream.readGo_count_stable :
    ∀ (r : Nat) (s : BufferedInStream) (acc : List Nat) (k : Nat),
      acc.length ≠ 0 → (BufferedInStream.readGo s r acc k).2.2 = k := by
  intro r
  induction r with
  | zero => intro s acc k _; rfl
  | succ n ih =>
    intro s acc k hacc
    rw [BufferedInStream.readGo]
    by_cases htop : s.top = s.buf.length
    · simp only [htop, if_true, if_neg hacc]
    · simp only [if_neg htop]
      exact ih _ _ _ (by simp)

/-- Claim C5: a `BufferedInStream::read(dst, len)` call with `len > 0`
performs exactly one backend refill when the buffered window is already
exhausted and none otherwise (in particular, never more than one), and
when that single refill yields no data the call returns 0 bytes. -/
theorem c5_buffered_read_single_refill (s : BufferedInStream) (len : Nat)
    (h : 0 < len) :
    (BufferedInStream.read s len).2.2 =
      (if s.top = s.buf.length then 1 else 0) ∧
    (s.top = s.buf.length → (BufferedInStream.refill s).1 = false →
      (BufferedInStream.read s len).1 = []) := by
  obtain ⟨m, rfl⟩ : ∃ m, len = m + 1 :=
    ⟨len - 1, (Nat.succ_pred_eq_of_pos h).symm⟩
  unfold BufferedInStream.read
  rw [BufferedInStream.readGo]
  by_cases htop : s.top = s.buf.length
  · simp only [htop, if_true, List.length_nil, ite_true]
    by_cases hr : (BufferedInStream.refill s).1
    · simp only [hr, if_true]
      constructor
      · exact BufferedInStream.readGo_count_stable m _ _ 1 (by simp)
      · intro _ hr0
        exact absurd hr0 (by simp)
    · simp only [Bool.not_eq_true] at hr
      simp [hr]
  · simp only [if_neg htop]
    constructor
    · rw [BufferedInStream.readGo_count_stable m _ _ 0 (by simp)]
    · intro h0
      exact absurd h0 htop

/-- The loop of `BufferedInStream::readn` only ever appends to the bytes
already copied: running it with accumulator `acc` yields `acc` followed
by whatever it yields from the empty accumulator, with the same final
state. -/
theorem BufferedInStream.readnGo_append :
    ∀ (r : Nat) (s : BufferedInStream) (acc : List Nat),
      BufferedInStream.readnGo s r acc =
        (acc ++ (BufferedInStream.readnGo s r []).1,
         (BufferedInStream.readnGo s r []).2) := by
  intro r
  induction r with
  | zero => intro s acc; simp [BufferedInStream.readnGo]
  | succ n ih =>
    intro s acc
    rw [BufferedInStream.readnGo]
    conv_rhs => rw [BufferedInStream.readnGo]
    by_cases htop : s.top = s.buf.length
    · simp only [htop, if_true]
      by_cases hr : (BufferedInStream.refill s).1
      · simp only [hr, if_true]
        rw [ih _ (acc ++ [_]), ih _ ([] ++ [_])]
        simp
      · simp [hr]
    · simp only [if_neg htop]
      rw [ih _ (acc ++ [_]), ih _ ([] ++ [_])]
      simp

/-- `BufferedInStream::readn(dst, len)` drains the stream in order: on a
well-formed state whose backend never returns an empty chunk before
end-of-stream, it returns the first `len` of the remaining bytes (all of
them if fewer than `len` remain) and leaves exactly the rest available. -/
theorem BufferedInStream.readn_avail :
    ∀ (len : Nat) (s : BufferedInStream),
      s.top ≤ s.buf.length → (∀ c ∈ s.backend, c ≠ []) →
      (BufferedInStream.readn s len).1 =
        (BufferedInStream.avail s).take len ∧
      BufferedInStream.avail (BufferedInStream.readn s len).2 =
        (BufferedInStream.avail s).drop len := by
  intro len
  induction len with
  | zero => intro s _ _; exact ⟨rfl, rfl⟩
  | succ n ih =>
    intro s hwf hne
    unfold BufferedInStream.readn
    rw [BufferedInStream.readnGo]
    by_cases htop : s.top = s.buf.length
    · have hdrop : s.buf.drop s.top = [] :=
        List.drop_eq_nil_iff.mpr (le_of_eq htop.symm)
      simp only [htop, if_true]
      match hb : s.backend with
      | [] =>
        have hav : BufferedInStream.avail s = [] := by
          simp [BufferedInStream.avail, hb, hdrop]
        have hr2 : BufferedInStream.refill s = (false, ⟨[], 0, []⟩) := by
          rw [BufferedInStream.refill, hb]
        rw [hr2]
        exact ⟨by rw [hav]; simp, by rw [hav]; simp [BufferedInStream.avail]⟩
      | c :: rest =>
        have hc : c ≠ [] := hne c (by rw [hb]; exact List.mem_cons_self c rest)
        match c with
        | [] => exact absurd rfl hc
        | b :: cs =>
          have hav : BufferedInStream.avail s =
              b :: (cs ++ rest.flatten) := by
            simp [BufferedInStream.avail, hb, hdrop]
          have hr2 : BufferedInStream.refill s =
              (true, ⟨b :: cs, 0, rest⟩) := by
            rw [BufferedInStream.refill, hb]
            simp
          rw [hr2]
          simp only [if_true]
          rw [BufferedInStream.readnGo_append]
          have ihs := ih ⟨b :: cs, 1, rest⟩ (by simp)
            (fun d hd => hne d (by rw [hb]; exact List.mem_cons_of_mem _ hd))
          have havs : BufferedInStream.avail ⟨b :: cs, 1, rest⟩ =
              cs ++ rest.flatten := by
            simp [BufferedInStream.avail]
          rw [havs] at ihs
          have h1 : (BufferedInStream.readnGo ⟨b :: cs, 0 + 1, rest⟩ n []).1 =
              List.take n (cs ++ rest.flatten) := ihs.1
          have h2 : BufferedInStream.avail
              (BufferedInStream.readnGo ⟨b :: cs, 0 + 1, rest⟩ n []).2 =
              List.drop n (cs ++ rest.flatten) := ihs.2
          refine ⟨?_, ?_⟩
          · rw [hav, List.take_succ_cons]
            simp [h1]
          · rw [hav, List.drop_succ_cons]
            simp [h2]
    · have hlt : s.top < s.buf.length := lt_of_le_of_ne hwf htop
      have hdrop : s.buf.drop s.top =
          s.buf[s.top] :: s.buf.drop (s.top + 1) :=
        List.drop_eq_getElem_cons hlt
      have hgd : s.buf.getD s.top 0 = s.buf[s.top] :=
        List.getD_eq_getElem s.buf 0 hlt
      have hav : BufferedInStream.avail s =
          s.buf[s.top] ::
            (s.buf.drop (s.top + 1) ++ s.backend.flatten) := by
        simp only [BufferedInStream.avail]
        rw [hdrop]
        rfl
      simp only [if_neg htop]
      rw [BufferedInStream.readnGo_append]
      have ihs := ih ⟨s.buf, s.top + 1, s.backend⟩ hlt hne
      have havs : BufferedInStream.avail ⟨s.buf, s.top + 1, s.backend⟩ =
          s.buf.drop (s.top + 1) ++ s.backend.flatten := rfl
      rw [havs] at ihs
      have h1 : (BufferedInStream.readnGo ⟨s.buf, s.top + 1, s.backend⟩ n []).1 =
          List.take n (s.buf.drop (s.top + 1) ++ s.backend.flatten) := ihs.1
      have h2 : BufferedInStream.avail
          (BufferedInStream.readnGo ⟨s.buf, s.top + 1, s.backend⟩ n []).2 =
          List.drop n (s.buf.drop (s.top + 1) ++ s.backend.flatten) := ihs.2
      refine ⟨?_, ?_⟩
      · rw [hav, List.take_succ_cons, hgd]
        simp [h1]
      · rw [hav, List.drop_succ_cons]
        simp [h2]

/-- Claim C6: `readn` loops until `len` bytes are collected or a read
yields nothing, returning the count actually collected, short only at
end-of-stream (the general part states it returns `take len` of the
remaining bytes and leaves `drop len` available); in particular, against
a source yielding exactly 4 bytes before EOF, a request for 10 returns
the 4 bytes and a subsequent request returns 0 — both for the
`BufferedInStream` override and for the base-class template over the
backend's `read`. -/
theorem c6_readn_collects_until_eof (s : BufferedInStream) (len : Nat)
    (hwf : s.top ≤ s.buf.length) (hne : ∀ c ∈ s.backend, c ≠ []) :
    ((BufferedInStream.readn s len).1 =
        (BufferedInStream.avail s).take len ∧
      BufferedInStream.avail (BufferedInStream.readn s len).2 =
        (BufferedInStream.avail s).drop len) ∧
    (BufferedInStream.readn ⟨[], 0, [[1, 2, 3, 4]]⟩ 10).1 = [1, 2, 3, 4] ∧
    (BufferedInStream.readn
        (BufferedInStream.readn ⟨[], 0, [[1, 2, 3, 4]]⟩ 10).2 10).1 = [] ∧
    InStream.readn unixReadCounts [4] 10 = (4, []) ∧
    InStream.readn unixReadCounts
      (InStream.readn unixReadCounts [4] 10).2 10 = (0, []) :=
  ⟨BufferedInStream.readn_avail len s hwf hne,
    by decide, by decide, by decide, by decide⟩

/-- Witness instantiating `c6_readn_collects_until_eof` at a concrete
stream holding the backend chunk `[1, 2, 3, 4]` and `len = 10`. -/
theorem c6_readn_collects_until_eof_witness :
    ((0 : Nat) ≤ ([] : List Nat).length ∧
      (∀ c ∈ ([[1, 2, 3, 4]] : List (List Nat)), c ≠ [])) ∧
    (((BufferedInStream.readn ⟨[], 0, [[1, 2, 3, 4]]⟩ 10).1 =
        (BufferedInStream.avail ⟨[], 0, [[1, 2, 3, 4]]⟩).take 10 ∧
      BufferedInStream.avail
          (BufferedInStream.readn ⟨[], 0, [[1, 2, 3, 4]]⟩ 10).2 =
        (BufferedInStream.avail ⟨[], 0, [[1, 2, 3, 4]]⟩).drop 10) ∧
    (BufferedInStream.readn ⟨[], 0, [[1, 2, 3, 4]]⟩ 10).1 = [1, 2, 3, 4] ∧
    (BufferedInStream.readn
        (BufferedInStream.readn ⟨[], 0, [[1, 2, 3, 4]]⟩ 10).2 10).1 = [] ∧
    InStream.readn unixReadCounts [4] 10 = (4, []) ∧
    InStream.readn unixReadCounts
      (InStream.readn unixReadCounts [4] 10).2 10 = (0, [])) :=
  ⟨⟨by decide, by decide⟩,
    c6_readn_collects_until_eof ⟨[], 0, [[1, 2, 3, 4]]⟩ 10
      (by decide) (by decide)⟩

/-- Witness instantiating `c5_buffered_read_single_refill` at a concrete
exhausted stream and `len = 1`: the read performs exactly one refill. -/
theorem c5_buffered_read_single_refill_witness :
    0 < 1 ∧
    ((BufferedInStream.read ⟨[], 0, [[7, 8]]⟩ 1).2.2 =
      (if (0 : Nat) = ([] : List Nat).length then 1 else 0) ∧
    ((0 : Nat) = ([] : List Nat).length →
      (BufferedInStream.refill ⟨[], 0, [[7, 8]]⟩).1 = false →
      (BufferedInStream.read ⟨[], 0, [[7, 8]]⟩ 1).1 = [])) :=
  ⟨by decide, c5_buffered_read_single_refill ⟨[], 0, [[7, 8]]⟩ 1 (by decide)⟩
